import Mathlib

/-!
Verification development for the `js-mc-server-wrapper` repository.

The TypeScript sources are shallowly embedded:
  * JavaScript strings are modelled as `List Char` (`JStr`), so that
    `trim` / `split` / `includes` can be reasoned about structurally.
  * The flat `key=value` properties codec (`properties.ts`, bundled at the
    top of the server module) is embedded as `parse` / `stringify` over an
    association list that models a JavaScript object (insertion order
    preserved, assignment to an existing key overwrites in place).
  * The `MinecraftServer` supervisor is embedded as pure transition
    functions over its four private boolean flags, with the settlement of
    the returned promises modelled by `POutcome`.
  * The death-watch interval, the stats announcement, the backup pruning
    step of the world-reset workflow, and the `zip` archive helper are
    embedded as pure functions producing the lists of RCON commands /
    filesystem effects they would issue.
-/

/-- JavaScript strings, modelled as lists of characters. -/
abbrev JStr := List Char

/-- Model of the whitespace class used by JavaScript `String.prototype.trim`,
restricted to the whitespace characters that can actually occur in this
development (space, tab, newline, carriage return). -/
def isWS (c : Char) : Bool :=
  c = ' ' || c = '\t' || c = '\n' || c = '\r'

/-- Model of JavaScript `String.prototype.trim`: drop whitespace from both
ends. -/
def jsTrim (s : JStr) : JStr :=
  ((s.dropWhile isWS).reverse.dropWhile isWS).reverse

/-- Model of JavaScript `String.prototype.split` with a single-character
separator: `''.split(sep)` is `['']`, and every occurrence of the separator
delimits a (possibly empty) field. -/
def splitOnChar (sep : Char) : JStr → List JStr
  | [] => [[]]
  | c :: rest =>
    match splitOnChar sep rest with
    | [] => [[]]
    | h :: t => if c = sep then [] :: h :: t else (c :: h) :: t

/-- Model of JavaScript `Array.prototype.join` with a single-character
separator (used by `stringify`'s `.join('\n')`). -/
def joinSep (sep : Char) : List JStr → JStr
  | [] => []
  | [l] => l
  | l :: rest => l ++ sep :: joinSep sep rest

/-- Model of JavaScript `String.prototype.includes`: `pat` occurs as a
contiguous substring. -/
def hasSubstr (pat : JStr) : JStr → Bool
  | [] => pat.isPrefixOf []
  | c :: rest => pat.isPrefixOf (c :: rest) || hasSubstr pat rest

/-- The value domain of the properties codec: JavaScript `null`, booleans,
(integer-valued) numbers and strings. -/
inductive JSVal where
  | jnull : JSVal
  | jbool (b : Bool) : JSVal
  | jnum (n : Int) : JSVal
  | jstr (s : JStr) : JSVal
deriving DecidableEq, Repr

/-- The ten decimal digit characters. -/
def digitChar (d : Nat) : Char :=
  match d with
  | 0 => '0' | 1 => '1' | 2 => '2' | 3 => '3' | 4 => '4'
  | 5 => '5' | 6 => '6' | 7 => '7' | 8 => '8' | _ => '9'

/-- Decimal digit test. -/
def isDigitChar (c : Char) : Bool :=
  '0' ≤ c && c ≤ '9'

/-- Numeric value of a decimal digit character. -/
def digitVal (c : Char) : Nat :=
  c.toNat - 48

/-- Fuel-driven digit extraction (structural recursion on the fuel, so that
it reduces inside the kernel; the fuel is always at least the number). -/
def natDigitsRevAux : Nat → Nat → List Nat
  | 0, n => [n]
  | fuel + 1, n => if n < 10 then [n] else (n % 10) :: natDigitsRevAux fuel (n / 10)

/-- Little-endian list of decimal digits of a natural number
(least-significant first; `0` yields `[0]`). -/
def natDigitsRev (n : Nat) : List Nat :=
  natDigitsRevAux n n

/-- Canonical decimal representation of a natural number, as produced by
JavaScript number-to-string conversion (and `JSON.stringify`) on
integer-valued numbers. -/
def natRepr (n : Nat) : JStr :=
  ((natDigitsRev n).map digitChar).reverse

/-- Canonical decimal representation of an integer, as produced by
`JSON.stringify` on an integer-valued JavaScript number. -/
def intRepr (n : Int) : JStr :=
  if n < 0 then '-' :: natRepr n.natAbs else natRepr n.toNat

/-- MSB-first value of a digit string (the usual left fold). -/
def digitsVal (s : JStr) : Nat :=
  s.foldl (fun acc c => 10 * acc + digitVal c) 0

/-- Nonempty all-digit string. -/
def isDigits (s : JStr) : Bool :=
  !s.isEmpty && s.all isDigitChar

/-- Canonical (JSON-grammar) unsigned integer literal: digits with no
leading zero, except the single digit `0` itself. -/
def isCanonNatLit (s : JStr) : Bool :=
  isDigits s && (s.head? ≠ some '0' || s = ['0'])

/-- Canonical signed integer literal: an unsigned literal, or `-` followed
by a nonzero unsigned literal (JSON accepts `-0`, but it denotes the same
number as `0` and is never produced by `JSON.stringify`). -/
def isCanonIntLit (s : JStr) : Bool :=
  if s.head? = some '-' then isCanonNatLit s.tail && s.tail ≠ ['0']
  else isCanonNatLit s

/-- Integer value of a canonical signed integer literal. -/
def intLitVal (s : JStr) : Int :=
  if s.head? = some '-' then -(digitsVal s.tail : Int) else (digitsVal s : Int)

/-- Model of ECMAScript `JSON.parse` restricted to the inputs this
development evaluates it on: the keyword literals `true` / `false` /
`null`, canonical integer literals (the outputs of `JSON.stringify` on the
codec's value domain), and strings whose first character cannot begin any
JSON value (on which the real `JSON.parse` throws, modelled by `none`). -/
def jsonParseLit (s : JStr) : Option JSVal :=
  if s = "true".data then some (.jbool true)
  else if s = "false".data then some (.jbool false)
  else if s = "null".data then some .jnull
  else if isCanonIntLit s then some (.jnum (intLitVal s))
  else none

/-- `parseValue` from the properties module: the empty string decodes to
`null`; otherwise try `JSON.parse`, falling back to the raw string when it
throws. -/
def parseValue (s : JStr) : JSVal :=
  if s = [] then .jnull
  else
    match jsonParseLit s with
    | some v => v
    | none => .jstr s

/-- `stringifyValue` from the properties module: `null` encodes as the
empty string; numbers (and objects, outside this value domain) go through
`JSON.stringify`; booleans and strings are interpolated directly into the
template literal (`String(true) = "true"`). -/
def stringifyValue : JSVal → JStr
  | .jnull => []
  | .jbool b => if b then "true".data else "false".data
  | .jnum n => intRepr n
  | .jstr s => s

/-- Property assignment on a JavaScript object modelled as an association
list: an existing key keeps its position and gets the new value, a fresh
key is appended. -/
def recSet (m : List (JStr × JSVal)) (k : JStr) (v : JSVal) :
    List (JStr × JSVal) :=
  match m with
  | [] => [(k, v)]
  | (k', v') :: rest =>
    if k' = k then (k', v) :: rest else (k', v') :: recSet rest k v

/-- One iteration of `parse`'s line loop: trim the line, skip `#` comments,
split on `=`, require exactly two parts, trim key and value and assign. -/
def processLine (out : List (JStr × JSVal)) (line0 : JStr) :
    List (JStr × JSVal) :=
  let line := jsTrim line0
  if line.head? = some '#' then out
  else
    match splitOnChar '=' line with
    | [k, v] => recSet out (jsTrim k) (parseValue (jsTrim v))
    | _ => out

/-- `parse` from the properties module. -/
def parse (data : JStr) : List (JStr × JSVal) :=
  (splitOnChar '\n' data).foldl processLine []

/-- The `key=value` line `stringify` emits for one entry. -/
def entryLine (kv : JStr × JSVal) : JStr :=
  kv.1 ++ '=' :: stringifyValue kv.2

/-- `stringify` from the properties module: one `key=value` line per entry,
joined with newlines. -/
def stringify (m : List (JStr × JSVal)) : JStr :=
  joinSep '\n' (m.map entryLine)

/-- Characters that can begin a JSON value (so any string NOT starting with
one of these makes the real `JSON.parse` throw). -/
def jsonStartChar (c : Char) : Bool :=
  c = 't' || c = 'f' || c = 'n' || c = '-' || isDigitChar c || c = '"' ||
    c = '\x7b' || c = '['

/-- Neither end of the string is a whitespace character (so `trim` leaves
it unchanged). -/
def noWSEnds (s : JStr) : Bool :=
  (match s.head? with | none => true | some c => !isWS c) &&
  (match s.getLast? with | none => true | some c => !isWS c)

/-- Keys that survive the codec unchanged: no `=` or newline anywhere, no
whitespace at either end, not starting with the comment marker `#`. -/
def plainKey (k : JStr) : Bool :=
  k.all (fun c => c ≠ '=' && c ≠ '\n') && noWSEnds k &&
  (match k.head? with | none => true | some c => c ≠ '#')

/-- String values that survive the codec unchanged: nonempty, no `=` or
newline, no whitespace at either end, and not starting with a character
that could begin a JSON value. -/
def plainStrVal (s : JStr) : Bool :=
  !s.isEmpty &&
  s.all (fun c => c ≠ '=' && c ≠ '\n') && noWSEnds s &&
  (match s.head? with | none => true | some c => !jsonStartChar c)

/-- Values that survive the codec unchanged (`null`, booleans and integers
always do; strings must be plain). -/
def safeVal : JSVal → Bool
  | .jstr s => plainStrVal s
  | _ => true

/-- Value of a little-endian digit list. -/
def valLE : List Nat → Nat
  | [] => 0
  | d :: ds => d + 10 * valLE ds

/-- The four private boolean flags of `MinecraftServer`, in declaration
order: `_serverRconOnline`, `_rconConnected`, `_serverOnline`,
`_serverStarting`. -/
structure ServerFlags where
  serverRconOnline : Bool
  rconConnected : Bool
  serverOnline : Bool
  serverStarting : Bool
deriving DecidableEq, Repr

/-- `isOnline()` (the source double-checks `_serverOnline`, which is just
the flag itself). -/
def isOnline (s : ServerFlags) : Bool :=
  if !s.serverOnline then false else s.serverOnline

/-- `isRCONConnected()`. -/
def isRCONConnected (s : ServerFlags) : Bool :=
  s.rconConnected

/-- The settlement of the promise a lifecycle method returns to its direct
caller: resolved, or rejected with a reason. -/
inductive POutcome where
  | resolvedOk
  | rejectedWith (msg : String)
deriving DecidableEq, Repr

/-- The synchronous fates of the executor body of `start()`: run to
completion, throw while reading/writing `server.properties` inside
`_configureRCON`, or throw from `spawn` itself.  (A spawn failure reported
through the child-process `error` event is asynchronous and is modelled
separately by `onProcessError`.) -/
inductive StartFault where
  | ok
  | configThrow
  | spawnThrow
deriving DecidableEq, Repr

/-- What a call to `start()` produces: the flags afterwards, whether the
returned promise resolves (`.ok`) or rejects (`.error` with the rejection
reason), the log lines emitted, and whether the caller's `onStartup` hook
fired. -/
structure StartResult where
  flags : ServerFlags
  outcome : POutcome
  logs : List String
  onStartupFired : Bool
deriving DecidableEq, Repr

/-- `MinecraftServer.start()`.  The two rejections are issued before any
state is touched.  Otherwise the executor sets the starting flag, resets
the RCON flags, runs `_configureRCON`, spawns the process, marks the
server online and resolves; a synchronous throw from `_configureRCON` or
`spawn` rejects the inner promise, which the attached `.catch` converts
into a log line and a resolved outer promise — note that the flags set
before the throw are not rolled back. -/
def start (s : ServerFlags) (fault : StartFault) : StartResult :=
  if s.serverStarting then ⟨s, .rejectedWith "Server is already starting", [], false⟩
  else if isOnline s then ⟨s, .rejectedWith "Server is already online", [], false⟩
  else
    let s1 : ServerFlags :=
      { s with serverStarting := true, serverRconOnline := false,
               rconConnected := false }
    match fault with
    | .configThrow => ⟨s1, .resolvedOk, ["Failed to start server: ..."], false⟩
    | .spawnThrow => ⟨s1, .resolvedOk, ["Failed to start server: ..."], false⟩
    | .ok =>
      ⟨{ s1 with serverOnline := true, serverStarting := false }, .resolvedOk,
        ["Server process started!"], true⟩

/-- What a call to `stop()` / `kill()` produces: flags afterwards, resolved
or rejected, and what was written to the process stdin. -/
structure StopResult where
  flags : ServerFlags
  outcome : POutcome
  stdinWrites : List String
deriving DecidableEq, Repr

/-- `MinecraftServer.stop()`: reject when not online; otherwise write
`stop\n` to the process stdin (the promise resolves later, when the
process exit event fires). -/
def stop (s : ServerFlags) : StopResult :=
  if !(isOnline s) then ⟨s, .rejectedWith "Server is already offline", []⟩
  else ⟨s, .resolvedOk, ["stop\n"]⟩

/-- `MinecraftServer.kill()`: reject when not online; otherwise send SIGINT
(no stdin write) and resolve on the exit event. -/
def kill (s : ServerFlags) : StopResult :=
  if !(isOnline s) then ⟨s, .rejectedWith "Server is already offline", []⟩
  else ⟨s, .resolvedOk, []⟩

/-- `_onProcessError`: force all four flags to false and invoke the
caller's `onShutdown` hook (unconditionally, once per invocation; the
second component counts hook invocations). -/
def onProcessError (_s : ServerFlags) : ServerFlags × Nat :=
  (⟨false, false, false, false⟩, 1)

/-- `_onProcessExit`: force all four flags to false and invoke the caller's
`onShutdown` hook (unconditionally, once per invocation). -/
def onProcessExit (_s : ServerFlags) (_code : Int) : ServerFlags × Nat :=
  (⟨false, false, false, false⟩, 1)

/-- The child-process events whose handlers `start()` registers. -/
inductive ProcEvent where
  | errorEv
  | exitEv (code : Int)
deriving DecidableEq, Repr

/-- Dispatch one child-process event to its registered handler. -/
def handleProcEvent (s : ServerFlags) : ProcEvent → ServerFlags × Nat
  | .errorEv => onProcessError s
  | .exitEv code => onProcessExit s code

/-- Run the handlers for a sequence of child-process events of one
lifecycle, accumulating the number of `onShutdown` invocations. -/
def runProcEvents (s : ServerFlags) (events : List ProcEvent) :
    ServerFlags × Nat :=
  events.foldl
    (fun acc e =>
      let r := handleProcEvent acc.1 e
      (r.1, acc.2 + r.2))
    (s, 0)

/-- The death-detection predicate of `checkDeathCount`: the response to the
`execute if score` query contains one of the two accepted success
substrings. -/
def deathDetected (result : JStr) : Bool :=
  hasSubstr "passed".data result ||
    hasSubstr "commands.execute.conditional.pass".data result

/-- The three RCON commands every death-check tick issues before looking at
the response. -/
def deathCheckCmds : List String :=
  ["scoreboard players set #hc.deathCount deaths 0",
   "scoreboard players operation #hc.deathCount deaths > * deaths",
   "execute if score #hc.deathCount deaths matches 1.."]

/-- The hours/minutes/seconds arithmetic of `showStats` (JavaScript
floating-point `/ 1000`, `/ 60`, `% 60` followed by `Math.floor`, which on
a nonnegative millisecond count equals these integer divisions). -/
def hmsOf (timeSurvived : Nat) : Nat × Nat × Nat :=
  (timeSurvived / 3600000, timeSurvived / 60000 % 60, timeSurvived / 1000 % 60)

/-- The fixed list of movement-type sub-objectives `showStats` folds into
the shared scratch score. -/
def distanceObjectives : List String :=
  ["sneakTravel", "walkTravel", "sprintTravel", "swimTravel", "flyTravel",
   "horseTravel", "pigTravel", "minecartTravel", "striderTravel",
   "walkOnWaterTravel", "walkUnderWaterTravel", "fallTravel", "boatTravel",
   "climbTravel"]

/-- The RCON commands `showStats` sends, in order. -/
def showStatsCmds (now startTime : Nat) : List String :=
  let t := now - startTime
  let h := (hmsOf t).1
  let m := (hmsOf t).2.1
  let sec := (hmsOf t).2.2
  ["tellraw @a \x7b\"text\": \"Game Over!\",\"color\":\"red\"\x7d",
   "tellraw @a \x7b\"text\": \"This run\x27s Stats:\", \"color\":\"red\"\x7d",
   "tellraw @a [\x7b\"text\": \"You survived for \",\"color\":\"red\"\x7d, \x7b\"text\": \"" ++
     toString h ++ ":" ++ toString m ++ ":" ++ toString sec ++
     "\",\"color\":\"aqua\"\x7d, \x7b\"text\":\".\"\x7d]",
   "execute as @a run scoreboard players operation #hc.kills i += @s kills",
   "tellraw @a [\x7b\"text\": \"You killed \",\"color\":\"red\"\x7d, \x7b\"score\":\x7b\"name\":\"#hc.kills\",\"objective\":\"i\"\x7d,\"color\":\"aqua\"\x7d, \x7b\"text\":\" mobs.\"\x7d]"] ++
  distanceObjectives.map (fun obj =>
    "execute as @a run scoreboard players operation #hc.distance i += @s " ++ obj) ++
  ["scoreboard players operation #hc.distance i /= 100 i",
   "tellraw @a [\x7b\"text\": \"You traveled a total of \",\"color\":\"red\"\x7d, \x7b\"score\":\x7b\"name\":\"#hc.distance\",\"objective\":\"i\"\x7d,\"color\":\"aqua\"\x7d, \x7b\"text\":\" blocks.\"\x7d]",
   "execute as @a run scoreboard players operation #hc.damageDealt i += @s damageDealt",
   "tellraw @a [\x7b\"text\": \"You dealt \",\"color\":\"red\"\x7d, \x7b\"score\":\x7b\"name\":\"#hc.damageDealt\",\"objective\":\"i\"\x7d,\"color\":\"aqua\"\x7d, \x7b\"text\":\" damage.\"\x7d]",
   "execute as @a run scoreboard players operation #hc.damageTaken i += @s damageTaken",
   "tellraw @a [\x7b\"text\": \"You took \",\"color\":\"red\"\x7d, \x7b\"score\":\x7b\"name\":\"#hc.damageTaken\",\"objective\":\"i\"\x7d,\"color\":\"aqua\"\x7d, \x7b\"text\":\" damage.\"\x7d]",
   "execute as @a run scoreboard players operation #hc.jumps i += @s jumpCount",
   "tellraw @a [\x7b\"text\": \"You jumped \",\"color\":\"red\"\x7d, \x7b\"score\":\x7b\"name\":\"#hc.jumps\",\"objective\":\"i\"\x7d,\"color\":\"aqua\"\x7d, \x7b\"text\":\" times.\"\x7d]",
   "execute as @a run scoreboard players operation #hc.drops i += @s dropItem",
   "tellraw @a [\x7b\"text\": \"You dropped \",\"color\":\"red\"\x7d, \x7b\"score\":\x7b\"name\":\"#hc.drops\",\"objective\":\"i\"\x7d,\"color\":\"aqua\"\x7d, \x7b\"text\":\" items.\"\x7d]"]

/-- The 30 per-second countdown actionbar commands. -/
def countdownCmds : List String :=
  (List.range 30).map (fun i =>
    "title @a actionbar \x7b\"text\": \"Server will stop in " ++
      toString (30 - i) ++ " seconds...\",\"color\":\"red\"\x7d")

/-- Everything `checkDeathCount` sends after detecting a death: the title
block and wither cue, the `showStats` announcement, and the countdown. -/
def deathSequenceSends (now startTime : Nat) : List String :=
  ["title @a times 20 100 20",
   "title @a title \x7b\"text\": \"Game Over!\",\"color\":\"red\"\x7d",
   "title @a subtitle \x7b\"text\": \"You have failed. Now you will suffer.\",\"color\":\"red\"\x7d",
   "execute as @a at @s run playsound minecraft:entity.wither.spawn player @s ~ ~ ~ 10 0.1"] ++
  showStatsCmds now startTime ++ countdownCmds

/-- What one firing of the death-check tick does: the RCON commands sent,
whether the poll interval was cleared, and whether `server.stop()` /
`resetWorld` were invoked. -/
structure TickResult where
  sends : List String
  intervalCleared : Bool
  stopCalled : Bool
  resetCalled : Bool
deriving DecidableEq, Repr

/-- `checkDeathCount`, given the response text of the `execute if score`
query: without a success substring it returns after the three check
commands; with one it clears the interval first and then runs the whole
announcement + countdown + stop + reset sequence. -/
def checkDeathCount (resp : JStr) (now startTime : Nat) : TickResult :=
  if !(deathDetected resp) then ⟨deathCheckCmds, false, false, false⟩
  else
    ⟨deathCheckCmds ++ deathSequenceSends now startTime, true, true, true⟩

/-- One firing of the `setInterval` callback in `watchForDeaths`: the
offline/disconnected guard clears the interval and returns before any RCON
traffic; otherwise the tick runs `checkDeathCount`. -/
def intervalTick (s : ServerFlags) (resp : JStr) (now startTime : Nat) :
    TickResult :=
  if !(isOnline s) || !(isRCONConnected s) then ⟨[], true, false, false⟩
  else checkDeathCount resp now startTime

/-- `ranSequence r` holds when the tick ran the death sequence (cleared the
interval, stopped the supervisor and invoked the world reset). -/
def ranSequence (r : TickResult) : Bool :=
  r.intervalCleared && r.stopCalled && r.resetCalled

/-- The environment one interval firing sees: the supervisor flags at that
moment, the response text of the death query, and the current time. -/
structure TickInput where
  flags : ServerFlags
  resp : JStr
  now : Nat
deriving DecidableEq, Repr

/-- One online generation of the watcher: ticks fire in order while the
interval is live; once a tick clears the interval, no later tick fires. -/
def runGen (startTime : Nat) : Bool → List TickInput → List TickResult
  | _, [] => []
  | false, _ :: _ => []
  | true, i :: rest =>
    let r := intervalTick i.flags i.resp i.now startTime
    r :: runGen startTime (!r.intervalCleared) rest

/-- Effect on the scratch score of one
`execute as @a run scoreboard players operation #hc.distance i += @s obj`
command: every player's `obj` score is added into the scratch score
(Minecraft `+=` under `execute as @a`). -/
def foldObjective {P : Type} (players : List P) (score : P → String → Int)
    (acc : Int) (obj : String) : Int :=
  players.foldl (fun a p => a + score p obj) acc

/-- The scratch score after the fourteen distance-fold commands. -/
def distanceScratchAfterFolds {P : Type} (players : List P)
    (score : P → String → Int) (init : Int) : Int :=
  distanceObjectives.foldl (foldObjective players score) init

/-- The broadcast value after
`scoreboard players operation #hc.distance i /= 100 i`: the scratch score
divided by the score of the fake player `100` in objective `i` (set to
`100` by the `onOnline` command list), using Minecraft's floored scoreboard
division. -/
def distanceBroadcastValue {P : Type} (players : List P)
    (score : P → String → Int) (init : Int) : Int :=
  Int.fdiv (distanceScratchAfterFolds players score init) 100

/-- The mathematical total of all players' scores over the fixed
sub-objective list. -/
def totalDistance {P : Type} (players : List P)
    (score : P → String → Int) : Int :=
  (distanceObjectives.map (fun obj => (players.map (fun p => score p obj)).sum)).sum

/-- JavaScript `Array.prototype.sort()` on an array of strings:
lexicographic by code unit, modelled by insertion sort over the
lexicographic linear order on `List Char`. -/
def sortJS (l : List JStr) : List JStr :=
  l.insertionSort (· ≤ ·)

/-- The backup-retention step of `resetWorld`: list the backup directory;
with more than 10 entries, delete the file whose name sorts first. -/
def pruneBackups (backups : List JStr) : List JStr :=
  if backups.length > 10 then
    match sortJS backups with
    | [] => backups
    | oldest :: _ => backups.erase oldest
  else backups

/-- A concrete backup-directory listing with 11 distinct
timestamp-embedding names (test fixture for the retention invariant). -/
def elevenBackups : List JStr :=
  ["world 2024-01-01.zip".data, "world 2024-01-02.zip".data,
   "world 2024-01-03.zip".data, "world 2024-01-04.zip".data,
   "world 2024-01-05.zip".data, "world 2024-01-06.zip".data,
   "world 2024-01-07.zip".data, "world 2024-01-08.zip".data,
   "world 2024-01-09.zip".data, "world 2024-01-10.zip".data,
   "world 2024-01-11.zip".data]

/-- The platforms the `zip` helper distinguishes (`process.platform`). -/
inductive Platform where
  | win32
  | linux
  | other
deriving DecidableEq, Repr

/-- The settlement state of a JavaScript promise. -/
inductive PromiseState where
  | pending
  | resolved
  | rejected (msg : String)
deriving DecidableEq, Repr

/-- The `exit` handler `zip`'s executor registers on the spawned archiver
process: on win32 and linux it resolves the promise whatever the exit code
is; on every other platform the `switch` falls through and no handler (and
no call to `resolve`/`reject`) exists. -/
def zipExitHandler (p : Platform) : Option (Int → PromiseState) :=
  match p with
  | .win32 => some (fun _ => .resolved)
  | .linux => some (fun _ => .resolved)
  | .other => none

/-- The state of `zip`'s promise once the archiver process has emitted
`exit` with the given code. -/
def zipPromiseAfterExit (p : Platform) (code : Int) : PromiseState :=
  match zipExitHandler p with
  | some h => h code
  | none => .pending

example : parse ("a=true".data) = [("a".data, .jbool true)] := by decide

example : parse (stringify [("a".data, .jstr "true".data)]) =
    [("a".data, .jbool true)] := by decide

example : parse (stringify [("rcon.port".data, .jnum 25575),
    ("enable-rcon".data, .jbool true), ("motd".data, .jstr "hello".data),
    ("x".data, .jnull)]) =
    [("rcon.port".data, .jnum 25575), ("enable-rcon".data, .jbool true),
     ("motd".data, .jstr "hello".data), ("x".data, .jnull)] := by decide

/-! ### Decimal digit lemmas -/

lemma valLE_natDigitsRevAux (fuel n : Nat) (h : n ≤ fuel) :
    valLE (natDigitsRevAux fuel n) = n := by
  induction fuel generalizing n with
  | zero =>
    have hn : n = 0 := by omega
    subst hn; decide
  | succ fuel ih =>
    unfold natDigitsRevAux
    split
    · simp [valLE]
    · rename_i h10
      have hle : n / 10 ≤ fuel := by omega
      simp only [valLE, ih _ hle]
      omega

lemma mem_natDigitsRevAux_lt (fuel n : Nat) (h : n ≤ fuel) :
    ∀ d ∈ natDigitsRevAux fuel n, d < 10 := by
  induction fuel generalizing n with
  | zero =>
    have hn : n = 0 := by omega
    subst hn; decide
  | succ fuel ih =>
    unfold natDigitsRevAux
    split
    · rename_i h10
      intro d hd
      simp only [List.mem_singleton] at hd
      omega
    · rename_i h10
      have hle : n / 10 ≤ fuel := by omega
      intro d hd
      rcases List.mem_cons.mp hd with rfl | hd'
      · omega
      · exact ih _ hle d hd'

lemma natDigitsRevAux_ne_nil (fuel n : Nat) : natDigitsRevAux fuel n ≠ [] := by
  cases fuel with
  | zero => simp [natDigitsRevAux]
  | succ fuel =>
    unfold natDigitsRevAux
    split <;> simp

lemma getLast?_natDigitsRevAux (fuel n : Nat) (h : n ≤ fuel) (hn : 0 < n) :
    ∀ d, (natDigitsRevAux fuel n).getLast? = some d → d ≠ 0 := by
  induction fuel generalizing n with
  | zero => omega
  | succ fuel ih =>
    unfold natDigitsRevAux
    split
    · rename_i h10
      intro d hd
      simp only [List.getLast?_singleton, Option.some.injEq] at hd
      omega
    · rename_i h10
      have hle : n / 10 ≤ fuel := by omega
      have hpos : 0 < n / 10 := by omega
      intro d hd
      obtain ⟨x, xs, hx⟩ :=
        List.exists_cons_of_ne_nil (natDigitsRevAux_ne_nil fuel (n / 10))
      rw [hx, List.getLast?_cons_cons] at hd
      exact ih _ hle hpos d (hx ▸ hd)

lemma digitVal_digitChar (d : Nat) (h : d < 10) :
    digitVal (digitChar d) = d := by
  interval_cases d <;> decide

lemma isDigitChar_digitChar (d : Nat) (h : d < 10) :
    isDigitChar (digitChar d) = true := by
  interval_cases d <;> decide

lemma digitChar_ne_zeroChar (d : Nat) (h : d < 10) (hd : d ≠ 0) :
    digitChar d ≠ '0' := by
  interval_cases d
  · exact absurd rfl hd
  all_goals decide

lemma foldl_digits (l : List Nat) (a : Nat) (h : ∀ d ∈ l, d < 10) :
    ((l.map digitChar).reverse).foldl (fun acc c => 10 * acc + digitVal c) a =
      a * 10 ^ l.length + valLE l := by
  induction l generalizing a with
  | nil => simp [valLE]
  | cons d ds ih =>
    simp only [List.map_cons, List.reverse_cons, List.foldl_append,
      List.foldl_cons, List.foldl_nil]
    rw [ih _ (fun x hx => h x (List.mem_cons_of_mem _ hx))]
    rw [digitVal_digitChar d (h d (List.mem_cons_self _ _))]
    simp only [valLE, List.length_cons, pow_succ]
    ring

lemma digitsVal_natRepr (n : Nat) : digitsVal (natRepr n) = n := by
  unfold digitsVal natRepr natDigitsRev
  rw [foldl_digits _ _ (mem_natDigitsRevAux_lt n n le_rfl)]
  rw [valLE_natDigitsRevAux n n le_rfl]
  simp

lemma natRepr_ne_nil (n : Nat) : natRepr n ≠ [] := by
  unfold natRepr natDigitsRev
  simp [natDigitsRevAux_ne_nil]

lemma natRepr_all_digits (n : Nat) : ∀ c ∈ natRepr n, isDigitChar c = true := by
  intro c hc
  unfold natRepr natDigitsRev at hc
  simp only [List.mem_reverse, List.mem_map] at hc
  obtain ⟨d, hd, rfl⟩ := hc
  exact isDigitChar_digitChar d (mem_natDigitsRevAux_lt n n le_rfl d hd)

lemma natRepr_head_isDigit (n : Nat) :
    ∀ c, (natRepr n).head? = some c → isDigitChar c = true := by
  intro c hc
  exact natRepr_all_digits n c (List.mem_of_mem_head? (by rw [hc]; rfl))

lemma isCanonNatLit_natRepr (n : Nat) : isCanonNatLit (natRepr n) = true := by
  rcases Nat.eq_zero_or_pos n with rfl | hn
  · decide
  · have h1 : (natRepr n).isEmpty = false := by
      rw [List.isEmpty_eq_false_iff_exists_mem]
      obtain ⟨b, L, hb⟩ := List.exists_cons_of_ne_nil (natRepr_ne_nil n)
      exact ⟨b, by rw [hb]; exact List.mem_cons_self _ _⟩
    have h2 : (natRepr n).all isDigitChar = true :=
      List.all_eq_true.mpr (natRepr_all_digits n)
    have h3 : (natRepr n).head? ≠ some '0' := by
      unfold natRepr natDigitsRev
      rw [List.head?_reverse, List.getLast?_map]
      obtain ⟨d, hd⟩ : ∃ d, (natDigitsRevAux n n).getLast? = some d := by
        cases hgl : (natDigitsRevAux n n).getLast? with
        | none =>
          exact absurd (List.getLast?_eq_none_iff.mp hgl)
            (natDigitsRevAux_ne_nil n n)
        | some d => exact ⟨d, rfl⟩
      rw [hd]
      have hdne : d ≠ 0 := getLast?_natDigitsRevAux n n le_rfl hn d hd
      have hdmem : d ∈ natDigitsRevAux n n := by
        obtain ⟨hne, heq⟩ := List.mem_getLast?_eq_getLast (l := natDigitsRevAux n n)
          (x := d) (by rw [hd]; rfl)
        rw [heq]
        exact List.getLast_mem hne
      have hdlt : d < 10 := mem_natDigitsRevAux_lt n n le_rfl d hdmem
      simp only [Option.map_some', ne_eq, Option.some.injEq]
      exact digitChar_ne_zeroChar d hdlt hdne
    unfold isCanonNatLit isDigits
    rw [h1, h2]
    simp [h3]

/-! ### `jsonParseLit` on canonical representations -/

lemma natRepr_ne_true (n : Nat) : natRepr n ≠ "true".data := by
  intro he
  have := natRepr_head_isDigit n 't' (by rw [he]; rfl)
  exact absurd this (by decide)

lemma natRepr_ne_false (n : Nat) : natRepr n ≠ "false".data := by
  intro he
  have := natRepr_head_isDigit n 'f' (by rw [he]; rfl)
  exact absurd this (by decide)

lemma natRepr_ne_null (n : Nat) : natRepr n ≠ "null".data := by
  intro he
  have := natRepr_head_isDigit n 'n' (by rw [he]; rfl)
  exact absurd this (by decide)

lemma natRepr_head_ne_minus (n : Nat) : (natRepr n).head? ≠ some '-' := by
  intro h
  have := natRepr_head_isDigit n '-' h
  exact absurd this (by decide)

lemma isCanonIntLit_natRepr (n : Nat) : isCanonIntLit (natRepr n) = true := by
  unfold isCanonIntLit
  rw [if_neg (natRepr_head_ne_minus n)]
  exact isCanonNatLit_natRepr n

lemma intLitVal_natRepr (n : Nat) : intLitVal (natRepr n) = (n : Int) := by
  unfold intLitVal
  rw [if_neg (natRepr_head_ne_minus n), digitsVal_natRepr]

lemma jsonParseLit_natRepr (n : Nat) :
    jsonParseLit (natRepr n) = some (.jnum (n : Int)) := by
  unfold jsonParseLit
  rw [if_neg (natRepr_ne_true n), if_neg (natRepr_ne_false n),
    if_neg (natRepr_ne_null n), if_pos (isCanonIntLit_natRepr n),
    intLitVal_natRepr]

lemma natRepr_ne_zeroSingleton (m : Nat) (hm : 0 < m) : natRepr m ≠ ['0'] := by
  intro he
  have := digitsVal_natRepr m
  rw [he] at this
  have h0 : digitsVal ['0'] = 0 := by decide
  omega

lemma negRepr_ne_true (m : Nat) : ('-' :: natRepr m) ≠ "true".data := by
  intro he
  have : ('-' :: natRepr m).head? = some '-' := rfl
  rw [he] at this
  exact absurd this (by decide)

lemma negRepr_ne_false (m : Nat) : ('-' :: natRepr m) ≠ "false".data := by
  intro he
  have : ('-' :: natRepr m).head? = some '-' := rfl
  rw [he] at this
  exact absurd this (by decide)

lemma negRepr_ne_null (m : Nat) : ('-' :: natRepr m) ≠ "null".data := by
  intro he
  have : ('-' :: natRepr m).head? = some '-' := rfl
  rw [he] at this
  exact absurd this (by decide)

lemma isCanonIntLit_negRepr (m : Nat) (hm : 0 < m) :
    isCanonIntLit ('-' :: natRepr m) = true := by
  unfold isCanonIntLit
  rw [if_pos (by rfl)]
  simp only [List.tail_cons, Bool.and_eq_true, decide_eq_true_eq]
  exact ⟨isCanonNatLit_natRepr m, natRepr_ne_zeroSingleton m hm⟩

lemma intLitVal_negRepr (m : Nat) :
    intLitVal ('-' :: natRepr m) = -(m : Int) := by
  unfold intLitVal
  rw [if_pos (by rfl)]
  simp only [List.tail_cons, digitsVal_natRepr]

lemma jsonParseLit_intRepr (n : Int) :
    jsonParseLit (intRepr n) = some (.jnum n) := by
  unfold intRepr
  split
  · rename_i hneg
    have hm : 0 < n.natAbs := by omega
    unfold jsonParseLit
    rw [if_neg (negRepr_ne_true _), if_neg (negRepr_ne_false _),
      if_neg (negRepr_ne_null _), if_pos (isCanonIntLit_negRepr _ hm),
      intLitVal_negRepr]
    congr 1
    congr 1
    omega
  · rename_i hpos
    rw [jsonParseLit_natRepr]
    congr 2
    omega

lemma intRepr_ne_nil (n : Int) : intRepr n ≠ [] := by
  unfold intRepr
  split
  · simp
  · exact natRepr_ne_nil _

/-! ### `parseValue` inverts `stringifyValue` on safe values -/

lemma jsonStartChar_of_isCanonIntLit (s : JStr) (h : isCanonIntLit s = true) :
    ∀ c, s.head? = some c → jsonStartChar c = true := by
  intro c hc
  unfold isCanonIntLit at h
  by_cases hm : s.head? = some '-'
  · rw [hc] at hm
    injection hm with hm
    subst hm
    decide
  · rw [if_neg hm] at h
    unfold isCanonNatLit isDigits at h
    simp only [Bool.and_eq_true] at h
    have hall := List.all_eq_true.mp h.1.2
    have hmem : c ∈ s := List.mem_of_mem_head? (by rw [hc]; rfl)
    have hd := hall c hmem
    unfold jsonStartChar
    rw [hd]
    simp

lemma jsonParseLit_eq_none_of_plain (s : JStr) (h : plainStrVal s = true) :
    jsonParseLit s = none := by
  unfold plainStrVal at h
  simp only [Bool.and_eq_true] at h
  obtain ⟨⟨⟨hne, _hall⟩, _hws⟩, hstart⟩ := h
  obtain ⟨c, rest, rfl⟩ : ∃ c rest, s = c :: rest := by
    cases s with
    | nil => simp at hne
    | cons c rest => exact ⟨c, rest, rfl⟩
  have hc : jsonStartChar c = false := by
    simp only [List.head?_cons] at hstart
    rw [Bool.not_eq_true'] at hstart
    exact hstart
  unfold jsonParseLit
  rw [if_neg, if_neg, if_neg, if_neg]
  · intro hlit
    have := jsonStartChar_of_isCanonIntLit _ hlit c rfl
    rw [hc] at this
    exact Bool.false_ne_true this
  · intro he
    rw [show ("null".data) = 'n' :: "ull".data from rfl] at he
    have : c = 'n' := (List.cons.injEq _ _ _ _ ▸ he).1
    subst this
    exact absurd hc (by decide)
  · intro he
    rw [show ("false".data) = 'f' :: "alse".data from rfl] at he
    have : c = 'f' := (List.cons.injEq _ _ _ _ ▸ he).1
    subst this
    exact absurd hc (by decide)
  · intro he
    rw [show ("true".data) = 't' :: "rue".data from rfl] at he
    have : c = 't' := (List.cons.injEq _ _ _ _ ▸ he).1
    subst this
    exact absurd hc (by decide)

lemma parseValue_stringifyValue (v : JSVal) (hv : safeVal v = true) :
    parseValue (stringifyValue v) = v := by
  cases v with
  | jnull => decide
  | jbool b => cases b <;> decide
  | jnum n =>
    show parseValue (intRepr n) = JSVal.jnum n
    unfold parseValue
    rw [if_neg (intRepr_ne_nil n), jsonParseLit_intRepr]
  | jstr s =>
    show parseValue s = JSVal.jstr s
    have hne : s ≠ [] := by
      unfold safeVal plainStrVal at hv
      simp only [Bool.and_eq_true] at hv
      have := hv.1.1.1
      simpa using this
    unfold parseValue
    rw [if_neg hne, jsonParseLit_eq_none_of_plain s hv]

/-! ### Trim, split and join lemmas -/

lemma dropWhile_eq_self_of_head (p : Char → Bool) (s : JStr)
    (h : ∀ c, s.head? = some c → p c = false) : s.dropWhile p = s := by
  cases s with
  | nil => rfl
  | cons c rest =>
    rw [List.dropWhile_cons, if_neg]
    rw [h c rfl]
    simp

lemma jsTrim_eq_self (s : JStr)
    (hh : ∀ c, s.head? = some c → isWS c = false)
    (hl : ∀ c, s.getLast? = some c → isWS c = false) : jsTrim s = s := by
  unfold jsTrim
  rw [dropWhile_eq_self_of_head _ _ hh]
  rw [dropWhile_eq_self_of_head _ _
    (by intro c hc; rw [List.head?_reverse] at hc; exact hl c hc)]
  exact List.reverse_reverse s

lemma splitOnChar_cons (sep c : Char) (rest : JStr) :
    splitOnChar sep (c :: rest) =
      match splitOnChar sep rest with
      | [] => [[]]
      | h :: t => if c = sep then [] :: h :: t else (c :: h) :: t := rfl

lemma splitOnChar_ne_nil (sep : Char) (s : JStr) : splitOnChar sep s ≠ [] := by
  cases s with
  | nil => simp [splitOnChar]
  | cons c rest =>
    rw [splitOnChar_cons]
    split
    · simp
    · split <;> simp

lemma splitOnChar_of_not_mem (sep : Char) (s : JStr) (h : sep ∉ s) :
    splitOnChar sep s = [s] := by
  induction s with
  | nil => rfl
  | cons c rest ih =>
    have hc : c ≠ sep := fun he => h (he ▸ List.mem_cons_self c rest)
    have hrest : sep ∉ rest := fun hm => h (List.mem_cons_of_mem _ hm)
    unfold splitOnChar
    rw [ih hrest]
    simp [hc]

lemma splitOnChar_append (sep : Char) (l t : JStr) (h : sep ∉ l) :
    splitOnChar sep (l ++ sep :: t) = l :: splitOnChar sep t := by
  induction l with
  | nil =>
    simp only [List.nil_append]
    rw [splitOnChar_cons]
    cases ht : splitOnChar sep t with
    | nil => exact absurd ht (splitOnChar_ne_nil sep t)
    | cons a t' => simp
  | cons c l' ih =>
    have hc : c ≠ sep := fun he => h (he ▸ List.mem_cons_self c l')
    have hl' : sep ∉ l' := fun hm => h (List.mem_cons_of_mem _ hm)
    simp only [List.cons_append]
    rw [splitOnChar_cons, ih hl']
    simp [hc]

lemma splitOnChar_joinSep (sep : Char) (ls : List JStr)
    (h : ∀ l ∈ ls, sep ∉ l) (hne : ls ≠ []) :
    splitOnChar sep (joinSep sep ls) = ls := by
  induction ls with
  | nil => exact absurd rfl hne
  | cons l rest ih =>
    cases rest with
    | nil =>
      show splitOnChar sep (joinSep sep [l]) = [l]
      have : joinSep sep [l] = l := rfl
      rw [this]
      exact splitOnChar_of_not_mem sep l (h l (List.mem_cons_self _ _))
    | cons l' rest' =>
      have hjoin : joinSep sep (l :: l' :: rest') =
          l ++ sep :: joinSep sep (l' :: rest') := rfl
      rw [hjoin, splitOnChar_append sep l _ (h l (List.mem_cons_self _ _))]
      rw [ih (fun x hx => h x (List.mem_cons_of_mem _ hx)) (by simp)]

/-! ### Association-list lemmas -/

lemma recSet_not_mem (m : List (JStr × JSVal)) (k : JStr) (v : JSVal)
    (h : k ∉ m.map Prod.fst) : recSet m k v = m ++ [(k, v)] := by
  induction m with
  | nil => rfl
  | cons kv rest ih =>
    obtain ⟨k', v'⟩ := kv
    simp only [List.map_cons, List.mem_cons] at h
    push_neg at h
    unfold recSet
    rw [if_neg (fun he => h.1 he.symm), ih h.2]
    rfl

/-! ### Per-line behaviour of `parse` on `stringify` output -/

lemma intRepr_chars (n : Int) :
    ∀ c ∈ intRepr n, isDigitChar c = true ∨ c = '-' := by
  intro c hc
  unfold intRepr at hc
  split at hc
  · rcases List.mem_cons.mp hc with rfl | hc'
    · exact .inr rfl
    · exact .inl (natRepr_all_digits _ c hc')
  · exact .inl (natRepr_all_digits _ c hc)

lemma stringifyValue_chars (v : JSVal) (hv : safeVal v = true) :
    ∀ c ∈ stringifyValue v, c ≠ '=' ∧ c ≠ '\n' := by
  cases v with
  | jnull => simp [stringifyValue]
  | jbool b => cases b <;> decide
  | jnum n =>
    intro c hc
    show c ≠ '=' ∧ c ≠ '\n'
    have : isDigitChar c = true ∨ c = '-' := intRepr_chars n c hc
    rcases this with hd | rfl
    · constructor
      · intro he; rw [he] at hd; exact absurd hd (by decide)
      · intro he; rw [he] at hd; exact absurd hd (by decide)
    · exact ⟨by decide, by decide⟩
  | jstr s =>
    intro c hc
    unfold safeVal plainStrVal at hv
    simp only [Bool.and_eq_true] at hv
    have hall := List.all_eq_true.mp hv.1.1.2
    have := hall c hc
    simp only [Bool.and_eq_true, decide_eq_true_eq] at this
    exact this

lemma mem_of_head?_some {c : Char} {s : JStr} (h : s.head? = some c) :
    c ∈ s := List.mem_of_mem_head? (by rw [h]; rfl)

lemma mem_of_getLast?_some {c : Char} {s : JStr} (h : s.getLast? = some c) :
    c ∈ s := by
  obtain ⟨hne, heq⟩ := List.mem_getLast?_eq_getLast (l := s) (x := c)
    (by rw [h]; rfl)
  rw [heq]
  exact List.getLast_mem hne

lemma noWSEnds_of_all (s : JStr) (h : ∀ c ∈ s, isWS c = false) :
    noWSEnds s = true := by
  unfold noWSEnds
  rw [Bool.and_eq_true]
  constructor
  · cases hh : s.head? with
    | none => rfl
    | some c => simp [h c (mem_of_head?_some hh)]
  · cases hh : s.getLast? with
    | none => rfl
    | some c => simp [h c (mem_of_getLast?_some hh)]

lemma noWSEnds_head {s : JStr} (h : noWSEnds s = true) :
    ∀ c, s.head? = some c → isWS c = false := by
  intro c hc
  unfold noWSEnds at h
  rw [Bool.and_eq_true] at h
  have := h.1
  rw [hc] at this
  simpa using this

lemma noWSEnds_getLast {s : JStr} (h : noWSEnds s = true) :
    ∀ c, s.getLast? = some c → isWS c = false := by
  intro c hc
  unfold noWSEnds at h
  rw [Bool.and_eq_true] at h
  have := h.2
  rw [hc] at this
  simpa using this

lemma stringifyValue_noWSEnds (v : JSVal) (hv : safeVal v = true) :
    noWSEnds (stringifyValue v) = true := by
  cases v with
  | jnull => decide
  | jbool b => cases b <;> decide
  | jnum n =>
    apply noWSEnds_of_all
    intro c hc
    have : isDigitChar c = true ∨ c = '-' := intRepr_chars n c hc
    rcases this with hd | rfl
    · cases hw : isWS c
      · rfl
      · exfalso
        unfold isWS at hw
        simp only [Bool.or_eq_true, decide_eq_true_eq] at hw
        rcases hw with ((rfl | rfl) | rfl) | rfl <;> exact absurd hd (by decide)
    · decide
  | jstr s =>
    unfold safeVal plainStrVal at hv
    simp only [Bool.and_eq_true] at hv
    exact hv.1.2

lemma plainKey_parts {k : JStr} (h : plainKey k = true) :
    (∀ c ∈ k, c ≠ '=' ∧ c ≠ '\n') ∧ noWSEnds k = true ∧
      (∀ c, k.head? = some c → c ≠ '#') := by
  unfold plainKey at h
  simp only [Bool.and_eq_true] at h
  refine ⟨?_, h.1.2, ?_⟩
  · intro c hc
    have := List.all_eq_true.mp h.1.1 c hc
    simp only [Bool.and_eq_true, decide_eq_true_eq] at this
    exact this
  · intro c hc
    have := h.2
    rw [hc] at this
    simpa using this

lemma processLine_entryLine (out : List (JStr × JSVal)) (k : JStr) (v : JSVal)
    (hk : plainKey k = true) (hv : safeVal v = true) :
    processLine out (entryLine (k, v)) = recSet out k v := by
  obtain ⟨kchars, kends, khash⟩ := plainKey_parts hk
  have svends := stringifyValue_noWSEnds v hv
  have svchars := stringifyValue_chars v hv
  have hline : entryLine (k, v) = k ++ '=' :: stringifyValue v := rfl
  have hhead : ∀ c, (k ++ '=' :: stringifyValue v).head? = some c →
      isWS c = false ∧ c ≠ '#' := by
    intro c hc
    cases k with
    | nil =>
      simp only [List.nil_append, List.head?_cons, Option.some.injEq] at hc
      subst hc
      exact ⟨by decide, by decide⟩
    | cons a k' =>
      simp only [List.cons_append, List.head?_cons, Option.some.injEq] at hc
      subst hc
      exact ⟨noWSEnds_head kends _ rfl, khash _ rfl⟩
  have hlast : ∀ c, (k ++ '=' :: stringifyValue v).getLast? = some c →
      isWS c = false := by
    intro c hc
    rw [List.getLast?_append, List.getLast?_cons] at hc
    rw [Option.or_some] at hc
    injection hc with hc
    cases hsv0 : (stringifyValue v).getLast? with
    | none =>
      rw [hsv0] at hc
      simp only [Option.getD_none] at hc
      subst hc
      decide
    | some c0 =>
      rw [hsv0] at hc
      simp only [Option.getD_some] at hc
      subst hc
      exact noWSEnds_getLast svends c0 hsv0
  have htrim : jsTrim (k ++ '=' :: stringifyValue v) =
      k ++ '=' :: stringifyValue v :=
    jsTrim_eq_self _ (fun c hc => (hhead c hc).1) hlast
  have hsplit : splitOnChar '=' (k ++ '=' :: stringifyValue v) =
      [k, stringifyValue v] := by
    rw [splitOnChar_append '=' k _ (fun hm => (kchars '=' hm).1 rfl)]
    rw [splitOnChar_of_not_mem '=' _ (fun hm => (svchars '=' hm).1 rfl)]
  have hnothash : ¬ (k ++ '=' :: stringifyValue v).head? = some '#' := by
    intro hc
    exact (hhead '#' hc).2 rfl
  have htk : jsTrim k = k :=
    jsTrim_eq_self k (noWSEnds_head kends) (noWSEnds_getLast kends)
  have htv : jsTrim (stringifyValue v) = stringifyValue v :=
    jsTrim_eq_self _ (noWSEnds_head svends) (noWSEnds_getLast svends)
  rw [hline]
  unfold processLine
  simp only [htrim, hsplit]
  rw [if_neg hnothash]
  rw [htk, htv, parseValue_stringifyValue v hv]

lemma nl_not_mem_entryLine (kv : JStr × JSVal)
    (hk : plainKey kv.1 = true) (hv : safeVal kv.2 = true) :
    '\n' ∉ entryLine kv := by
  obtain ⟨k, v⟩ := kv
  obtain ⟨kchars, _, _⟩ := plainKey_parts hk
  have svchars := stringifyValue_chars v hv
  intro hm
  unfold entryLine at hm
  rcases List.mem_append.mp hm with hm | hm
  · exact (kchars _ hm).2 rfl
  · rcases List.mem_cons.mp hm with he | hm
    · exact absurd he.symm (by decide)
    · exact (svchars _ hm).2 rfl

lemma foldl_processLine_entries (m : List (JStr × JSVal)) :
    ∀ acc, (∀ kv ∈ m, plainKey kv.1 = true) →
      (∀ kv ∈ m, safeVal kv.2 = true) →
      (m.map Prod.fst).Nodup →
      (∀ kv ∈ m, kv.1 ∉ acc.map Prod.fst) →
      (m.map entryLine).foldl processLine acc = acc ++ m := by
  induction m with
  | nil => intro acc _ _ _ _; simp
  | cons kv m' ih =>
    intro acc hk hv hnd hfresh
    obtain ⟨k, v⟩ := kv
    simp only [List.map_cons, List.foldl_cons]
    rw [processLine_entryLine acc k v (hk _ (List.mem_cons_self _ _))
      (hv _ (List.mem_cons_self _ _))]
    rw [recSet_not_mem acc k v (hfresh _ (List.mem_cons_self _ _))]
    simp only [List.map_cons, List.nodup_cons] at hnd
    have hfresh' : ∀ kv ∈ m', kv.1 ∉ (acc ++ [(k, v)]).map Prod.fst := by
      intro x hx
      simp only [List.map_append, List.map_cons, List.map_nil]
      rw [List.mem_append]
      push_neg
      refine ⟨hfresh x (List.mem_cons_of_mem _ hx), ?_⟩
      intro hxk
      simp only [List.mem_singleton] at hxk
      exact hnd.1 (hxk ▸ List.mem_map_of_mem Prod.fst hx)
    rw [ih (acc ++ [(k, v)]) (fun x hx => hk x (List.mem_cons_of_mem _ hx))
      (fun x hx => hv x (List.mem_cons_of_mem _ hx)) hnd.2 hfresh']
    simp

/-! ### Claim C3: properties round trip -/

/-- C3, counterexample: the round trip fails on the code as claimed for
arbitrary string values — the single-entry mapping `{"a": "true"}` (a
*string* value) stringifies to `a=true`, which `parse` decodes back as the
*boolean* `true`, so `parse (stringify x) ≠ x`. -/
theorem parse_stringify_roundtrip_cex :
    ¬ (∀ m : List (JStr × JSVal), (m.map Prod.fst).Nodup →
        parse (stringify m) = m) := by
  intro h
  have := h [("a".data, .jstr "true".data)] (by decide)
  exact absurd this (by decide)

/-- C3, amended: for every mapping with distinct plain keys (no `=` or
newline, no whitespace at either end, not starting with `#`) and values
that are booleans, integer numbers, `null`, or plain strings (nonempty, no
`=` or newline, trim-stable, and not starting with a character that can
begin a JSON literal), `parse (stringify m)` reproduces `m` exactly: every
key is present with an equal value, in the same order, with no extras. -/
theorem parse_stringify_roundtrip (m : List (JStr × JSVal))
    (hk : ∀ kv ∈ m, plainKey kv.1 = true)
    (hv : ∀ kv ∈ m, safeVal kv.2 = true)
    (hnd : (m.map Prod.fst).Nodup) :
    parse (stringify m) = m := by
  cases m with
  | nil => decide
  | cons kv m' =>
    have hnl : ∀ l ∈ (kv :: m').map entryLine, '\n' ∉ l := by
      intro l hl
      obtain ⟨x, hx, rfl⟩ := List.mem_map.mp hl
      exact nl_not_mem_entryLine x (hk x hx) (hv x hx)
    unfold parse stringify
    rw [splitOnChar_joinSep '\n' _ hnl (by simp)]
    exact foldl_processLine_entries _ [] hk hv hnd (by simp)

/-- C3, witness: the amended round trip evaluated on a concrete
server-properties-style mapping exercising all four value kinds. -/
theorem parse_stringify_roundtrip_witness :
    parse (stringify [("enable-rcon".data, .jbool true),
        ("rcon.port".data, .jnum 25575),
        ("rcon.password".data, .jstr "abc123xyz".data),
        ("broadcast-rcon-to-ops".data, .jbool false),
        ("max-tick-time".data, .jnum (-1)),
        ("motd".data, .jnull)]) =
      [("enable-rcon".data, .jbool true),
       ("rcon.port".data, .jnum 25575),
       ("rcon.password".data, .jstr "abc123xyz".data),
       ("broadcast-rcon-to-ops".data, .jbool false),
       ("max-tick-time".data, .jnum (-1)),
       ("motd".data, .jnull)] :=
  parse_stringify_roundtrip _ (by decide) (by decide) (by decide)

/-! ### Claim C2: lifecycle violations -/

/-- C2: `start()` while a start is in progress rejects with
"Server is already starting"; `start()` while online rejects with
"Server is already online"; `stop()` / `kill()` while not online reject
with "Server is already offline".  Each rejection is produced before any
state mutation (the flags, logs, stdin writes and hooks are untouched), so
the violation is surfaced synchronously to the direct caller with the
supervisor state unchanged. -/
theorem lifecycle_violations (s : ServerFlags) (f : StartFault) :
    (s.serverStarting = true →
      start s f = ⟨s, .rejectedWith "Server is already starting", [], false⟩) ∧
    (s.serverStarting = false → isOnline s = true →
      start s f = ⟨s, .rejectedWith "Server is already online", [], false⟩) ∧
    (isOnline s = false →
      stop s = ⟨s, .rejectedWith "Server is already offline", []⟩ ∧
      kill s = ⟨s, .rejectedWith "Server is already offline", []⟩) := by
  refine ⟨?_, ?_, ?_⟩
  · intro h
    unfold start
    rw [if_pos h]
  · intro h1 h2
    unfold start
    rw [if_neg (by rw [h1]; exact Bool.false_ne_true), if_pos h2]
  · intro h
    constructor
    · unfold stop
      rw [if_pos (by rw [h]; rfl)]
    · unfold kill
      rw [if_pos (by rw [h]; rfl)]

/-- C2, witness: the three violations evaluated at concrete states — a
supervisor mid-start, an online supervisor, and a stopped supervisor. -/
theorem lifecycle_violations_witness :
    start ⟨false, false, false, true⟩ .ok =
      ⟨⟨false, false, false, true⟩, .rejectedWith "Server is already starting",
        [], false⟩ ∧
    start ⟨true, true, true, false⟩ .ok =
      ⟨⟨true, true, true, false⟩, .rejectedWith "Server is already online",
        [], false⟩ ∧
    stop ⟨false, false, false, false⟩ =
      ⟨⟨false, false, false, false⟩, .rejectedWith "Server is already offline", []⟩ ∧
    kill ⟨false, false, false, false⟩ =
      ⟨⟨false, false, false, false⟩, .rejectedWith "Server is already offline", []⟩ :=
  ⟨(lifecycle_violations ⟨false, false, false, true⟩ .ok).1 rfl,
   (lifecycle_violations ⟨true, true, true, false⟩ .ok).2.1 rfl (by decide),
   ((lifecycle_violations ⟨false, false, false, false⟩ .ok).2.2 (by decide)).1,
   ((lifecycle_violations ⟨false, false, false, false⟩ .ok).2.2 (by decide)).2⟩

/-! ### Claim C5: offline guard of the watcher tick -/

/-- C5: a death-watch tick that fires while the supervisor is not online or
RCON is not connected clears the poll interval (so the watcher is Stopped
and no further tick fires) and issues zero RCON send calls in that tick. -/
theorem tick_offline_guard (s : ServerFlags) (resp : JStr) (now st : Nat)
    (h : isOnline s = false ∨ isRCONConnected s = false) :
    intervalTick s resp now st = ⟨[], true, false, false⟩ := by
  unfold intervalTick
  rcases h with h | h <;> rw [if_pos (by rw [h]; simp)]

/-- C5, witness: the guard evaluated on a stopped supervisor with a
response that would otherwise count as a death. -/
theorem tick_offline_guard_witness :
    intervalTick ⟨false, false, false, false⟩ "passed".data 5000 0 =
      ⟨[], true, false, false⟩ :=
  tick_offline_guard ⟨false, false, false, false⟩ "passed".data 5000 0
    (by decide)

/-! ### Claim C6: process exit/error handling -/

lemma runProcEvents_foldl_count (events : List ProcEvent) :
    ∀ (s : ServerFlags) (n : Nat),
      (events.foldl
        (fun acc e =>
          let r := handleProcEvent acc.1 e
          (r.1, acc.2 + r.2)) (s, n)).2 = n + events.length := by
  induction events with
  | nil => intro s n; simp
  | cons e rest ih =>
    intro s n
    simp only [List.foldl_cons]
    rw [ih]
    have h1 : (handleProcEvent s e).2 = 1 := by
      cases e <;> rfl
    rw [h1]
    simp only [List.length_cons]
    omega

/-- C6, counterexample: the handlers contain no once-guard — each of
`_onProcessError` and `_onProcessExit` unconditionally invokes the caller's
`onShutdown` hook, so in a lifecycle where both the error event and the
exit event fire the hook is invoked twice, not exactly once. -/
theorem shutdown_hook_twice_cex :
    (runProcEvents ⟨false, true, true, false⟩ [.errorEv, .exitEv 0]).2 = 2 ∧
    ¬ (runProcEvents ⟨false, true, true, false⟩ [.errorEv, .exitEv 0]).2 = 1 := by
  decide

/-- C6, amended: on either the process exit event or the process error
event all four flags (online, starting, RCON-connected, server-side-RCON)
are forced to false, and `onShutdown` fires exactly once per *event* — a
lifecycle with exactly one error-or-exit event fires it exactly once, but
one where both events fire invokes it once per event (`events.length`
times in total). -/
theorem proc_event_forces_stopped (s : ServerFlags) (e : ProcEvent) :
    (handleProcEvent s e).1 = ⟨false, false, false, false⟩ ∧
    (handleProcEvent s e).2 = 1 ∧
    (∀ events : List ProcEvent,
      (runProcEvents s events).2 = events.length) := by
  refine ⟨by cases e <;> rfl, by cases e <;> rfl, ?_⟩
  intro events
  unfold runProcEvents
  rw [runProcEvents_foldl_count events s 0]
  omega

/-! ### Claim C7: spawn failure surfacing -/

/-- C7, counterexample: when the spawn fails asynchronously — the
child-process `error` event, the channel the sources' own error handler
(`_onProcessError`) is registered for — `start()` from a fresh supervisor
has already marked the supervisor online, fired `onStartup` and logged
"Server process started!" by the time it resolves; `isOnline()` reports
`true` until the error event later forces the flags back down.  So "no
online transition occurs" fails on the code. -/
theorem start_spawn_fail_cex :
    (start ⟨false, false, false, false⟩ .ok).outcome = .resolvedOk ∧
    isOnline (start ⟨false, false, false, false⟩ .ok).flags = true ∧
    (start ⟨false, false, false, false⟩ .ok).onStartupFired = true ∧
    isOnline (onProcessError (start ⟨false, false, false, false⟩ .ok).flags).1
      = false := by
  decide

/-- C7, amended: `start()` never rejects on a spawn failure and the failure
is surfaced as a log line only.  On a *synchronous* spawn throw the
supervisor never reaches online (`isOnline()` stays false and `onStartup`
never fires); on an *asynchronous* spawn error the supervisor transiently
transitions online and is only forced back to Stopped when the error event
fires. -/
theorem start_spawn_failure (s : ServerFlags)
    (hns : s.serverStarting = false) (hno : s.serverOnline = false) :
    (start s .spawnThrow).outcome = .resolvedOk ∧
    (start s .spawnThrow).logs = ["Failed to start server: ..."] ∧
    isOnline (start s .spawnThrow).flags = false ∧
    (start s .spawnThrow).onStartupFired = false ∧
    (start s .ok).outcome = .resolvedOk ∧
    isOnline (start s .ok).flags = true ∧
    (onProcessError (start s .ok).flags).1 = ⟨false, false, false, false⟩ := by
  obtain ⟨a, b, c, d⟩ := s
  simp only at hns hno
  subst hns hno
  cases a <;> cases b <;> decide

/-- C7, witness: the amended statement evaluated on a fresh supervisor. -/
theorem start_spawn_failure_witness :
    (start ⟨false, false, false, false⟩ .spawnThrow).outcome = .resolvedOk ∧
    (start ⟨false, false, false, false⟩ .spawnThrow).logs =
      ["Failed to start server: ..."] ∧
    isOnline (start ⟨false, false, false, false⟩ .spawnThrow).flags = false ∧
    (start ⟨false, false, false, false⟩ .spawnThrow).onStartupFired = false ∧
    (start ⟨false, false, false, false⟩ .ok).outcome = .resolvedOk ∧
    isOnline (start ⟨false, false, false, false⟩ .ok).flags = true ∧
    (onProcessError (start ⟨false, false, false, false⟩ .ok).flags).1 =
      ⟨false, false, false, false⟩ :=
  start_spawn_failure ⟨false, false, false, false⟩ rfl rfl

/-! ### Claim C10: stuck starting flag after a synchronous setup throw -/

/-- C10: a synchronous throw inside `start()`'s executor after the starting
flag is set (for example `_configureRCON` failing to read or write
`server.properties`) leaves the returned promise resolved with the error
only logged, but the starting flag permanently set: every subsequent
`start()` on any state with the flag set rejects with
"Server is already starting" and leaves the state unchanged — the flag is
never rolled back, so the supervisor can never be started again. -/
theorem start_config_throw_sticks (s : ServerFlags)
    (hns : s.serverStarting = false) (hno : s.serverOnline = false) :
    (start s .configThrow).outcome = .resolvedOk ∧
    (start s .configThrow).logs = ["Failed to start server: ..."] ∧
    (start s .configThrow).flags.serverStarting = true ∧
    (∀ (s' : ServerFlags) (f : StartFault), s'.serverStarting = true →
      (start s' f).outcome = .rejectedWith "Server is already starting" ∧
      (start s' f).flags = s') := by
  refine ⟨?_, ?_, ?_, ?_⟩
  · unfold start
    rw [if_neg (by rw [hns]; exact Bool.false_ne_true),
      if_neg (by unfold isOnline; rw [hno]; simp)]
  · unfold start
    rw [if_neg (by rw [hns]; exact Bool.false_ne_true),
      if_neg (by unfold isOnline; rw [hno]; simp)]
  · unfold start
    rw [if_neg (by rw [hns]; exact Bool.false_ne_true),
      if_neg (by unfold isOnline; rw [hno]; simp)]
  · intro s' f h
    unfold start
    rw [if_pos h]
    exact ⟨rfl, rfl⟩

/-- C10, witness: the stuck-starting scenario evaluated concretely — after
the configure throw the starting flag is set and a retry rejects. -/
theorem start_config_throw_sticks_witness :
    (start ⟨false, false, false, false⟩ .configThrow).outcome = .resolvedOk ∧
    (start ⟨false, false, false, false⟩ .configThrow).logs =
      ["Failed to start server: ..."] ∧
    (start ⟨false, false, false, false⟩ .configThrow).flags.serverStarting
      = true ∧
    (start (start ⟨false, false, false, false⟩ .configThrow).flags .ok).outcome
      = .rejectedWith "Server is already starting" := by
  have h := start_config_throw_sticks ⟨false, false, false, false⟩ rfl rfl
  exact ⟨h.1, h.2.1, h.2.2.1, (h.2.2.2 _ .ok h.2.2.1).1⟩

/-! ### Claim C9: the zip helper's promise -/

/-- C9: on win32 and linux the promise returned by `zip` resolves whenever
the spawned archiver process emits `exit`, whatever the exit code — it is
never rejected, so at the world-reset boundary an archive failure is
indistinguishable from success; on every other platform the `switch` falls
through, no handler is installed, and the promise never settles. -/
theorem zip_promise_behavior :
    (∀ code : Int, zipPromiseAfterExit .win32 code = .resolved) ∧
    (∀ code : Int, zipPromiseAfterExit .linux code = .resolved) ∧
    (∀ code : Int, zipPromiseAfterExit .other code = .pending) ∧
    (∀ (p : Platform) (code : Int) (msg : String),
      zipPromiseAfterExit p code ≠ .rejected msg) := by
  refine ⟨fun _ => rfl, fun _ => rfl, fun _ => rfl, ?_⟩
  intro p code msg
  cases p <;> simp [zipPromiseAfterExit, zipExitHandler]

/-! ### Claim C8: distance aggregation -/

lemma foldObjective_eq {P : Type} (players : List P)
    (score : P → String → Int) (acc : Int) (obj : String) :
    foldObjective players score acc obj =
      acc + (players.map (fun p => score p obj)).sum := by
  unfold foldObjective
  induction players generalizing acc with
  | nil => simp
  | cons p ps ih =>
    simp only [List.foldl_cons, List.map_cons, List.sum_cons]
    rw [ih]
    ring

lemma distanceScratch_eq {P : Type} (players : List P)
    (score : P → String → Int) (init : Int) :
    distanceScratchAfterFolds players score init =
      init + totalDistance players score := by
  unfold distanceScratchAfterFolds totalDistance
  generalize distanceObjectives = objs
  induction objs generalizing init with
  | nil => simp
  | cons o os ih =>
    simp only [List.foldl_cons, List.map_cons, List.sum_cons]
    rw [foldObjective_eq, ih]
    ring

/-- C8: the stats-announcement distance step folds every sub-objective of
the fixed fourteen-element movement-type list, over every player, into the
single scratch score (initially 0 in a fresh world) and then divides the
result by 100, discarding the remainder; in particular a total of 12345
centimeter units broadcasts as 123 blocks. -/
theorem distance_aggregation {P : Type} (players : List P)
    (score : P → String → Int) (h : 0 ≤ totalDistance players score) :
    distanceBroadcastValue players score 0 =
      (totalDistance players score).tdiv 100 ∧
    (totalDistance players score = 12345 →
      distanceBroadcastValue players score 0 = 123) := by
  have heq : distanceBroadcastValue players score 0 =
      (totalDistance players score).fdiv 100 := by
    unfold distanceBroadcastValue
    rw [distanceScratch_eq]
    norm_num
  constructor
  · rw [heq, Int.fdiv_eq_tdiv h (by norm_num)]
  · intro h12
    rw [heq, h12]
    decide

/-- C8, witness: two players whose movement sub-objective scores total
12345 hundredths broadcast 123 blocks. -/
theorem distance_aggregation_witness :
    0 ≤ totalDistance ["Alice", "Bob"]
      (fun p obj =>
        if p = "Alice" && obj = "walkTravel" then 12000
        else if p = "Bob" && obj = "boatTravel" then 345 else 0) ∧
    totalDistance ["Alice", "Bob"]
      (fun p obj =>
        if p = "Alice" && obj = "walkTravel" then 12000
        else if p = "Bob" && obj = "boatTravel" then 345 else 0) = 12345 ∧
    distanceBroadcastValue ["Alice", "Bob"]
      (fun p obj =>
        if p = "Alice" && obj = "walkTravel" then 12000
        else if p = "Bob" && obj = "boatTravel" then 345 else 0) 0 = 123 :=
  ⟨by decide,
   by decide,
   (distance_aggregation _ _ (by decide)).2 (by decide)⟩

/-! ### Claim C4: backup retention -/

lemma sortJS_perm (l : List JStr) : (sortJS l).Perm l :=
  List.perm_insertionSort _ l

lemma sortJS_sorted (l : List JStr) :
    (sortJS l).Sorted (fun a b => a ≤ b) :=
  List.sorted_insertionSort _ l

/-- C4: after the archive step, if the backup directory holds more than 10
entries the workflow deletes exactly one entry — the lexicographically
smallest name — so from 11 distinct sortable timestamp names exactly 10
remain: the minimum is gone and every other name is kept. -/
theorem backup_retention (backups : List JStr)
    (hlen : backups.length = 11) (hnd : backups.Nodup) :
    ∃ m ∈ backups, (∀ b ∈ backups, m ≤ b) ∧
      pruneBackups backups = backups.erase m ∧
      (pruneBackups backups).length = 10 ∧
      m ∉ pruneBackups backups ∧
      (∀ b ∈ backups, b ≠ m → b ∈ pruneBackups backups) := by
  have hgt : backups.length > 10 := by omega
  cases hs : sortJS backups with
  | nil =>
    have hp := sortJS_perm backups
    rw [hs] at hp
    have := hp.length_eq
    simp at this
    omega
  | cons m rest =>
    have hperm := sortJS_perm backups
    rw [hs] at hperm
    have hm : m ∈ backups := hperm.mem_iff.mp (List.mem_cons_self _ _)
    have hsorted := sortJS_sorted backups
    rw [hs] at hsorted
    have hmin : ∀ b ∈ backups, m ≤ b := by
      intro b hb
      have hb' : b ∈ m :: rest := hperm.mem_iff.mpr hb
      rcases List.mem_cons.mp hb' with rfl | hb''
      · exact le_refl b
      · exact (List.sorted_cons.mp hsorted).1 b hb''
    have hprune : pruneBackups backups = backups.erase m := by
      unfold pruneBackups
      rw [if_pos hgt, hs]
    refine ⟨m, hm, hmin, hprune, ?_, ?_, ?_⟩
    · rw [hprune, List.length_erase_of_mem hm, hlen]
    · rw [hprune]
      intro hcontra
      exact ((List.Nodup.mem_erase_iff hnd).mp hcontra).1 rfl
    · intro b hb hne
      rw [hprune]
      exact (List.Nodup.mem_erase_iff hnd).mpr ⟨hne, hb⟩

/-- C4, witness: the retention step evaluated on eleven concrete distinct
timestamped backup names. -/
theorem backup_retention_witness :
    ∃ m ∈ elevenBackups, (∀ b ∈ elevenBackups, m ≤ b) ∧
      pruneBackups elevenBackups = elevenBackups.erase m ∧
      (pruneBackups elevenBackups).length = 10 ∧
      m ∉ pruneBackups elevenBackups ∧
      (∀ b ∈ elevenBackups, b ≠ m → b ∈ pruneBackups elevenBackups) :=
  backup_retention elevenBackups (by decide) (by decide)

/-! ### Claim C1: the death sequence runs exactly once per generation -/

lemma runGen_false (startTime : Nat) (inputs : List TickInput) :
    runGen startTime false inputs = [] := by
  cases inputs <;> rfl

lemma runGen_cases (startTime : Nat) (inputs : List TickInput) :
    (∀ i ∈ inputs, isOnline i.flags = true ∧ isRCONConnected i.flags = true) →
    ((∃ i ∈ inputs, deathDetected i.resp = true) →
      (runGen startTime true inputs).countP ranSequence = 1) ∧
    ((∀ i ∈ inputs, deathDetected i.resp = false) →
      (runGen startTime true inputs).countP ranSequence = 0 ∧
      runGen startTime true inputs =
        inputs.map (fun _ => ⟨deathCheckCmds, false, false, false⟩)) := by
  induction inputs with
  | nil =>
    intro _
    constructor
    · rintro ⟨i, hi, _⟩
      exact absurd hi (List.not_mem_nil i)
    · intro _
      exact ⟨rfl, rfl⟩
  | cons i rest ih =>
    intro hguard
    have hio := (hguard i (List.mem_cons_self _ _)).1
    have hic := (hguard i (List.mem_cons_self _ _)).2
    have hguard' : ∀ j ∈ rest,
        isOnline j.flags = true ∧ isRCONConnected j.flags = true :=
      fun j hj => hguard j (List.mem_cons_of_mem _ hj)
    have htick : intervalTick i.flags i.resp i.now startTime =
        checkDeathCount i.resp i.now startTime := by
      unfold intervalTick
      rw [if_neg (by rw [hio, hic]; decide)]
    by_cases hd : deathDetected i.resp = true
    · have hcdc : checkDeathCount i.resp i.now startTime =
          ⟨deathCheckCmds ++ deathSequenceSends i.now startTime,
            true, true, true⟩ := by
        unfold checkDeathCount
        rw [hd]
        simp
      constructor
      · intro _
        simp only [runGen, htick, hcdc, Bool.not_true, runGen_false,
          List.countP_cons, List.countP_nil]
        simp [ranSequence]
      · intro hnone
        have := hnone i (List.mem_cons_self _ _)
        rw [this] at hd
        exact absurd hd Bool.false_ne_true
    · rw [Bool.not_eq_true] at hd
      have hcdc : checkDeathCount i.resp i.now startTime =
          ⟨deathCheckCmds, false, false, false⟩ := by
        unfold checkDeathCount
        rw [hd]
        simp
      constructor
      · rintro ⟨j, hj, hdj⟩
        rcases List.mem_cons.mp hj with rfl | hj'
        · rw [hdj] at hd; exact absurd hd (by decide)
        · have h1 := (ih hguard').1 ⟨j, hj', hdj⟩
          simp only [runGen, htick, hcdc, Bool.not_false, List.countP_cons]
          rw [h1]
          simp [ranSequence]
      · intro hnone
        have h2 := (ih hguard').2 (fun j hj => hnone j (List.mem_cons_of_mem _ hj))
        constructor
        · simp only [runGen, htick, hcdc, Bool.not_false, List.countP_cons]
          rw [h2.1]
          simp [ranSequence]
        · simp only [runGen, htick, hcdc, Bool.not_false, List.map_cons]
          rw [h2.2]

/-- C1: over one online generation (every tick sees the supervisor online
and RCON connected), if some death-check tick's response contains one of
the two accepted success substrings then the full
announcement + countdown + stop + reset sequence runs exactly once in the
generation — the tick that detects the death clears the poll interval
before the sequence, so no later tick fires; and if no response contains
either substring, every tick issues only the three check commands, none of
the sequence runs, and the watcher stays active (the interval is never
cleared). -/
theorem death_sequence_once (startTime : Nat) (inputs : List TickInput)
    (hguard : ∀ i ∈ inputs,
      isOnline i.flags = true ∧ isRCONConnected i.flags = true) :
    ((∃ i ∈ inputs, deathDetected i.resp = true) →
      (runGen startTime true inputs).countP ranSequence = 1) ∧
    ((∀ i ∈ inputs, deathDetected i.resp = false) →
      (runGen startTime true inputs).countP ranSequence = 0 ∧
      runGen startTime true inputs =
        inputs.map (fun _ => ⟨deathCheckCmds, false, false, false⟩)) :=
  runGen_cases startTime inputs hguard

/-- C1, witness: a generation whose second tick sees a response containing
`passed` runs the sequence exactly once; a generation of responses without
either substring runs none of it and never clears the interval. -/
theorem death_sequence_once_witness :
    (runGen 0 true
      [⟨⟨false, true, true, false⟩, "no deaths".data, 1000⟩,
       ⟨⟨false, true, true, false⟩, "Test passed".data, 16000⟩,
       ⟨⟨false, true, true, false⟩, "ignored".data, 31000⟩]).countP
        ranSequence = 1 ∧
    (runGen 0 true
      [⟨⟨false, true, true, false⟩, "no deaths".data, 1000⟩]).countP
        ranSequence = 0 :=
  ⟨(death_sequence_once 0 _ (by decide)).1
      ⟨⟨⟨false, true, true, false⟩, "Test passed".data, 16000⟩,
        by decide, by decide⟩,
   ((death_sequence_once 0 _ (by decide)).2 (by decide)).1⟩
